import Mathlib

/-!
Shallow embedding of `futures-loco-protocol` (`src/lib.rs`): the
`LocoClient` transport adapter — its read state machine (`poll_read`),
write/flush buffering (`write`, `poll_flush`), and request/response
correlation (`request`).

The codec (`LocoSink`/`LocoStream` from the external `loco_protocol`
crate) and the transport (`AsyncRead + AsyncWrite`) are external
collaborators.  The codec is modelled abstractly as a `StreamModel`
structure of operations (pull / state / extend), together with a
concrete scripted instance used to evaluate claims on concrete inputs;
the serializer of `LocoSink::send` is an abstract parameter
`enc : Command → List Nat`.  The transport is modelled as a script of
poll results (pending / error / data), matching the futures polling
discipline: each `poll_*` call on the transport consumes one event.

Async functions are driven by an external executor; we model each
`poll_*` method as a fuel-indexed function returning `none` when fuel
(or the transport script) runs out, and `async fn`s (`read`, `flush`,
the request task) as drivers that re-poll while the result is pending.
-/

namespace FuturesLoco

/-- 2^32, the modulus of the Rust `u32` id counter. -/
def U32_MOD : Nat := 4294967296

/-- `LocoClient::MAX_READ_SIZE = 16 * 1024 * 1024` (16 MiB). -/
def MAX_READ_SIZE : Nat := 16 * 1024 * 1024

/-- Protocol method identifier (`loco_protocol::command::Method`), an
opaque identifier for this layer; modelled as a string. -/
abbrev Method := String

/-- `loco_protocol::command::Header`: correlation id (u32), status,
method, data_type.  Only constructed/inspected, never serialized here. -/
structure Header where
  id : Nat
  status : Nat
  method : Method
  data_type : Nat
deriving Repr, DecidableEq

/-- A decoded command (`BoxedCommand`): header plus payload bytes. -/
structure Command where
  header : Header
  data : List Nat
deriving Repr, DecidableEq

/-- The partially parsed wire header exposed by `LocoStream::state()`;
the adapter inspects only its declared payload size (`data_size`). -/
structure RawHeader where
  data_size : Nat
deriving Repr, DecidableEq

/-- `loco_protocol::command::client::StreamState`: either no header
parsed yet, or a parsed header awaiting its payload. -/
inductive StreamState where
  | Pending
  | Header (h : RawHeader)
deriving Repr, DecidableEq

/-- `ReadState` from `lib.rs` (lines 212-218). -/
inductive ReadState where
  | Pending
  | PacketTooLarge
  | Done
  | Corrupted
deriving Repr, DecidableEq

/-- `std::io::Error`, to the precision this layer distinguishes:
`InvalidData` with a message, `UnexpectedEof`, or an opaque transport
error propagated verbatim. -/
inductive IoError where
  | invalidData (msg : String)
  | unexpectedEof
  | transport (code : Nat)
deriving Repr, DecidableEq

/-- Result of one transport `poll_read` into the 1024-byte scratch
buffer: suspend, fail, or deliver `bs` (`bs = []` signals end of
stream).  A faithful script has `bs.length ≤ 1024`; the model truncates
to the scratch-buffer size regardless. -/
inductive ReadEvent where
  | pending
  | error (e : IoError)
  | bytes (bs : List Nat)
deriving Repr, DecidableEq

/-- Result of one transport `poll_write`: suspend, fail, or accept up
to `n` bytes of the offered slice (the `AsyncWrite` contract returns a
count ≤ the slice length; the model takes `min n slice.length`). -/
inductive WriteEvent where
  | pending
  | error (e : IoError)
  | accept (n : Nat)
deriving Repr, DecidableEq

/-- Result of one transport `poll_flush`. -/
inductive FlushEvent where
  | pending
  | error (e : IoError)
  | ok
deriving Repr, DecidableEq

/-- The scripted transport (the `inner: T` field): pending scripts for
each polled operation, plus the observable effects — `delivered` is the
byte stream the transport has accepted so far, `flushed` counts
completed transport-level flushes. -/
structure Transport where
  reads : List ReadEvent
  writes : List WriteEvent
  flushes : List FlushEvent
  delivered : List Nat
  flushed : Nat
deriving Repr, DecidableEq

/-- The codec write buffer (`VecDeque<u8>` inside `LocoSink`): a ring
buffer whose `as_slices` exposes its contents as two contiguous runs
`front` and `back`, in order. -/
structure SinkBuf where
  front : List Nat
  back : List Nat
deriving Repr, DecidableEq

/-- The logical contents of the write buffer, in FIFO order. -/
def SinkBuf.content (b : SinkBuf) : List Nat := b.front ++ b.back

/-- `VecDeque::drain(..n)`: remove the first `n` bytes. -/
def SinkBuf.drain (b : SinkBuf) (n : Nat) : SinkBuf :=
  if n ≤ b.front.length then ⟨b.front.drop n, b.back⟩
  else ⟨[], b.back.drop (n - b.front.length)⟩

/-- Enqueueing serialized bytes at the tail of the ring buffer. -/
def SinkBuf.pushBack (b : SinkBuf) (bs : List Nat) : SinkBuf :=
  ⟨b.front, b.back ++ bs⟩

/-- The external codec read side (`LocoStream`), abstract over its
state type: `pull` is `stream.read()` (returns a decoded command and
the successor state, or `none`), `state` is `stream.state()`, `extend`
is `stream.read_buffer.extend(bytes)`. -/
structure StreamModel (σ : Type) where
  pull : σ → Option (Command × σ)
  state : σ → StreamState
  extend : σ → List Nat → σ

/-- The adapter (`LocoClient<T>`): id counter, codec sink write buffer,
codec stream state, read state, and the transport. -/
structure LocoClient (σ : Type) where
  current_id : Nat
  sink : SinkBuf
  stream : σ
  read_state : ReadState
  inner : Transport
deriving Repr, DecidableEq

/-- `LocoClient::new`: counter 0, fresh codec buffers, `Pending`. -/
def LocoClient.new (s0 : σ) (t : Transport) : LocoClient σ :=
  { current_id := 0, sink := ⟨[], []⟩, stream := s0,
    read_state := ReadState.Pending, inner := t }

/-- The size check of `poll_read` (lines 91-95): a parsed header whose
declared `data_size` exceeds `MAX_READ_SIZE`. -/
def tooLarge : StreamState → Bool
  | StreamState.Header h => decide (h.data_size > MAX_READ_SIZE)
  | StreamState.Pending => false

/-- Outcome of one `poll_*` call: `Poll::Pending`,
`Poll::Ready(Ok _)`, `Poll::Ready(Err _)`, or the `unreachable!()`
panic of the `Corrupted` branch. -/
inductive PollOutcome (α : Type) where
  | pending
  | ok (a : α)
  | err (e : IoError)
  | fatal
deriving Repr, DecidableEq

/-- `LocoClient::poll_read` (lines 78-124), fuel-indexed.  Each loop
iteration `mem::replace`s the read state with `Corrupted` and matches
on the old value; branches that restore the same value are modelled by
leaving the field as is, and the `Done` branch — which breaks without
restoring — leaves the slot `Corrupted`.  A transport poll consumes
one `ReadEvent`; `none` means fuel or script exhausted. -/
def pollRead (M : StreamModel σ) :
    Nat → LocoClient σ → Option (PollOutcome Command × LocoClient σ)
  | 0, _ => none
  | fuel+1, c =>
    match c.read_state with
    | ReadState.Pending =>
      match M.pull c.stream with
      | some (cmd, s') =>
        -- `*this.read_state = ReadState::Pending; break Poll::Ready(Ok(command))`
        some (PollOutcome.ok cmd, { c with stream := s' })
      | none =>
        if tooLarge (M.state c.stream) then
          -- `*this.read_state = ReadState::PacketTooLarge; continue`
          pollRead M fuel { c with read_state := ReadState.PacketTooLarge }
        else
          -- `*this.read_state = ReadState::Pending;` then poll the transport
          match c.inner.reads with
          | [] => none
          | ev :: rest =>
            let c1 := { c with inner := { c.inner with reads := rest } }
            match ev with
            | ReadEvent.pending => some (PollOutcome.pending, c1)
            | ReadEvent.error e => some (PollOutcome.err e, c1)
            | ReadEvent.bytes bs =>
              if bs.isEmpty then
                -- `read == 0`: `*this.read_state = ReadState::Done; continue`
                pollRead M fuel { c1 with read_state := ReadState.Done }
              else
                -- `this.stream.read_buffer.extend(&buffer[..read])`
                pollRead M fuel { c1 with stream := M.extend c1.stream (bs.take 1024) }
    | ReadState.PacketTooLarge =>
      some (PollOutcome.err (IoError.invalidData "packet is too large"), c)
    | ReadState.Done =>
      some (PollOutcome.err IoError.unexpectedEof,
            { c with read_state := ReadState.Corrupted })
    | ReadState.Corrupted => some (PollOutcome.fatal, c)

/-- `LocoClient::write` (lines 141-161): increment the counter (u32
wrapping), enqueue the serialized command, return the id.  Touches
neither the transport nor the read side. -/
def write (enc : Command → List Nat) (c : LocoClient σ)
    (method : Method) (data : List Nat) : Nat × LocoClient σ :=
  let id := (c.current_id + 1) % U32_MOD
  (id, { c with
          current_id := id,
          sink := c.sink.pushBack
            (enc { header := { id := id, status := 0, method := method,
                               data_type := 0 },
                   data := data }) })

/-- `LocoClient::poll_flush` (lines 163-183), fuel-indexed.  While the
write buffer is non-empty: offer `as_slices.0` if non-empty else
`as_slices.1` to the transport, then `drain(..written)`.  Once empty,
poll the transport-level flush. -/
def pollFlush : Nat → LocoClient σ → Option (PollOutcome Unit × LocoClient σ)
  | 0, _ => none
  | fuel+1, c =>
    if c.sink.content.isEmpty then
      match c.inner.flushes with
      | [] => none
      | ev :: rest =>
        let c1 := { c with inner := { c.inner with flushes := rest } }
        match ev with
        | FlushEvent.pending => some (PollOutcome.pending, c1)
        | FlushEvent.error e => some (PollOutcome.err e, c1)
        | FlushEvent.ok =>
          some (PollOutcome.ok (),
                { c1 with inner := { c1.inner with flushed := c1.inner.flushed + 1 } })
    else
      let slice := if c.sink.front.isEmpty then c.sink.back else c.sink.front
      match c.inner.writes with
      | [] => none
      | ev :: rest =>
        let c1 := { c with inner := { c.inner with writes := rest } }
        match ev with
        | WriteEvent.pending => some (PollOutcome.pending, c1)
        | WriteEvent.error e => some (PollOutcome.err e, c1)
        | WriteEvent.accept n =>
          let written := min n slice.length
          pollFlush fuel
            { c1 with
              sink := c1.sink.drain written,
              inner := { c1.inner with
                         delivered := c1.inner.delivered ++ slice.take written } }

/-- The `read()` async fn (lines 69-76): re-poll `poll_read` while it
reports pending. -/
def readDrive (M : StreamModel σ) :
    Nat → LocoClient σ → Option (PollOutcome Command × LocoClient σ)
  | 0, _ => none
  | fuel+1, c =>
    match pollRead M (fuel+1) c with
    | none => none
    | some (PollOutcome.pending, c') => readDrive M fuel c'
    | some r => some r

/-- The `flush` part of `send` / `request`: re-poll `poll_flush` while
it reports pending. -/
def flushDrive : Nat → LocoClient σ → Option (PollOutcome Unit × LocoClient σ)
  | 0, _ => none
  | fuel+1, c =>
    match pollFlush (fuel+1) c with
    | none => none
    | some (PollOutcome.pending, c') => flushDrive fuel c'
    | some r => some r

/-- The read task returned by `request` (lines 198-206): loop `read()`
until a decoded command's id equals the request id; non-matching
commands are dropped on the floor. -/
def requestTask (M : StreamModel σ) (id : Nat) :
    Nat → LocoClient σ → Option (PollOutcome Command × LocoClient σ)
  | 0, _ => none
  | fuel+1, c =>
    match readDrive M (fuel+1) c with
    | none => none
    | some (PollOutcome.ok cmd, c') =>
      if cmd.header.id = id then some (PollOutcome.ok cmd, c')
      else requestTask M id fuel c'
    | some (PollOutcome.pending, _) => none
    | some r => some r

/-- `LocoClient::request` (lines 186-209): write, drive the flush to
completion, and return the assigned id together with the result of
driving the read task. -/
def request (enc : Command → List Nat) (M : StreamModel σ)
    (fuelF fuelT : Nat) (c : LocoClient σ) (method : Method)
    (data : List Nat) :
    Option (Nat × Option (PollOutcome Command × LocoClient σ)) :=
  let w := write enc c method data
  match flushDrive fuelF w.2 with
  | some (PollOutcome.ok (), c2) => some (w.1, requestTask M w.1 fuelT c2)
  | _ => none

/-- Iterated `write` calls, collecting the returned ids in order. -/
def writeN (enc : Command → List Nat) (method : Method) (data : List Nat) :
    Nat → LocoClient σ → List Nat × LocoClient σ
  | 0, c => ([], c)
  | n+1, c =>
    let w := write enc c method data
    let rest := writeN enc method data n w.2
    (w.1 :: rest.1, rest.2)

/-- Iterated `read()` calls, collecting each call's resolution. -/
def readSeq (M : StreamModel σ) (fuel : Nat) :
    Nat → LocoClient σ → Option (List (PollOutcome Command) × LocoClient σ)
  | 0, c => some ([], c)
  | n+1, c =>
    match readDrive M fuel c with
    | none => none
    | some (r, c') =>
      match readSeq M fuel n c' with
      | none => none
      | some (rs, c'') => some (r :: rs, c'')

/-- A concrete codec instance for evaluating claims: `pull` consumes a
script of decoded commands, `state` is a fixed stream state, `extend`
appends to a byte buffer. -/
structure ScriptedStream where
  pulls : List (Option Command)
  st : StreamState
  read_buffer : List Nat
deriving Repr, DecidableEq

/-- The `StreamModel` of a `ScriptedStream`. -/
def scripted : StreamModel ScriptedStream where
  pull s :=
    match s.pulls with
    | [] => none
    | none :: _ => none
    | some cmd :: rest => some (cmd, { s with pulls := rest })
  state s := s.st
  extend s bs := { s with read_buffer := s.read_buffer ++ bs }

/-! Concrete inputs used to evaluate the theorems. -/

/-- A trivial serializer instance (the serializer is external). -/
def encNil : Command → List Nat := fun _ => []

/-- A codec whose partially parsed header declares 16 MiB + 1. -/
def bigStream : ScriptedStream := ⟨[], StreamState.Header ⟨16777217⟩, []⟩

/-- A codec whose partially parsed header declares exactly 16 MiB. -/
def smallStream : ScriptedStream := ⟨[], StreamState.Header ⟨16777216⟩, []⟩

/-- A codec with nothing decoded and no header parsed. -/
def idleStream : ScriptedStream := ⟨[], StreamState.Pending, []⟩

/-- A transport whose read side suspends once. -/
def pendTransport : Transport := ⟨[ReadEvent.pending], [], [], [], 0⟩

/-- A transport whose read side reports end of stream. -/
def eofTransport : Transport := ⟨[ReadEvent.bytes []], [], [], [], 0⟩

/-- Fresh client over `bigStream`. -/
def bigClient : LocoClient ScriptedStream := LocoClient.new bigStream pendTransport

/-- Fresh client over `smallStream`. -/
def smallClient : LocoClient ScriptedStream := LocoClient.new smallStream pendTransport

/-- A client already poisoned with `PacketTooLarge`. -/
def stuckClient : LocoClient ScriptedStream :=
  { LocoClient.new idleStream pendTransport with read_state := ReadState.PacketTooLarge }

/-- Fresh client whose transport is at end of stream. -/
def eofClient : LocoClient ScriptedStream := LocoClient.new idleStream eofTransport

/-- Fresh client that suspends on its first transport read. -/
def waitClient : LocoClient ScriptedStream := LocoClient.new idleStream pendTransport

/-- `waitClient` after the suspension (the pending event consumed). -/
def waitClient2 : LocoClient ScriptedStream :=
  { waitClient with inner := { waitClient.inner with reads := [] } }

/-- A write buffer holding five bytes split across the two ring runs. -/
def fifoSink : SinkBuf := ⟨[1, 2, 3], [4, 5]⟩

/-- A transport accepting 2, then 10, then 2 bytes per write call. -/
def fifoTransport : Transport :=
  ⟨[], [WriteEvent.accept 2, WriteEvent.accept 10, WriteEvent.accept 2],
   [FlushEvent.ok], [], 0⟩

/-- Client with pending output `[1,2,3,4,5]` over `fifoTransport`. -/
def fifoClient : LocoClient ScriptedStream :=
  { LocoClient.new idleStream fifoTransport with sink := fifoSink }

/-- `fifoClient` after a completed flush: buffer drained in order,
transport-level flush issued. -/
def fifoClient2 : LocoClient ScriptedStream :=
  { fifoClient with
    sink := ⟨[], []⟩,
    inner := { fifoClient.inner with
               writes := [], flushes := [], delivered := [1, 2, 3, 4, 5],
               flushed := 1 } }

/-- Client with an empty write buffer and one successful flush event. -/
def emptyFlushClient : LocoClient ScriptedStream :=
  LocoClient.new idleStream ⟨[], [], [FlushEvent.ok], [], 0⟩

/-- A decoded command whose id (7) does not match the request. -/
def cmdA : Command := ⟨⟨7, 0, "OTHER", 0⟩, [9]⟩

/-- A decoded command whose id (1) matches the first assigned id. -/
def cmdB : Command := ⟨⟨1, 0, "PING", 0⟩, [2]⟩

/-- Codec that decodes `cmdA` then `cmdB` on successive pulls. -/
def reqStream : ScriptedStream :=
  ⟨[some cmdA, some cmdB], StreamState.Pending, []⟩

/-- Transport for the request scenario: flush succeeds immediately. -/
def reqTransport : Transport := ⟨[], [], [FlushEvent.ok], [], 0⟩

/-- Fresh client for the request/response correlation scenario. -/
def reqClient : LocoClient ScriptedStream := LocoClient.new reqStream reqTransport

/-- `reqClient` after `write` (id 1 assigned) and a completed flush. -/
def reqClient2 : LocoClient ScriptedStream :=
  { current_id := 1, sink := ⟨[], []⟩, stream := reqStream,
    read_state := ReadState.Pending, inner := ⟨[], [], [], [], 1⟩ }

/-! Claim theorems. -/

/-- C1: in the `Pending` state with no decodable command, a parsed
header declaring strictly more than 16 MiB of payload makes `poll_read`
transition to `PacketTooLarge` and resolve with the packet-too-large
error without polling the transport (everything but the read state is
unchanged), while a declared size ≤ 16 MiB passes the check and the
driver proceeds to the transport read. -/
theorem pollRead_oversize_header_rejected (M : StreamModel σ) (fuel : Nat)
    (c : LocoClient σ) (hd : RawHeader)
    (hrs : c.read_state = ReadState.Pending)
    (hpull : M.pull c.stream = none)
    (hstate : M.state c.stream = StreamState.Header hd) :
    (hd.data_size > MAX_READ_SIZE →
      pollRead M (fuel + 2) c =
        some (PollOutcome.err (IoError.invalidData "packet is too large"),
              { c with read_state := ReadState.PacketTooLarge })) ∧
    (hd.data_size ≤ MAX_READ_SIZE → ∀ rest,
      c.inner.reads = ReadEvent.pending :: rest →
      pollRead M (fuel + 2) c =
        some (PollOutcome.pending,
              { c with inner := { c.inner with reads := rest } })) := by
  constructor
  · intro h
    have htl : tooLarge (M.state c.stream) = true := by
      rw [hstate]; exact decide_eq_true h
    show pollRead M (fuel + 1 + 1) c = _
    simp only [pollRead, hrs, hpull, htl, if_true]
  · intro h rest hreads
    have htl : tooLarge (M.state c.stream) = false := by
      rw [hstate]; exact decide_eq_false (not_lt.mpr h)
    show pollRead M (fuel + 1 + 1) c = _
    simp only [pollRead, hrs, hpull, htl, hreads, Bool.false_eq_true, if_false]

/-- C1 witness: rejection at a concrete 16 MiB + 1 header; acceptance
(the driver reaches the transport read) at exactly 16 MiB. -/
theorem pollRead_oversize_header_rejected_witness :
    pollRead scripted 2 bigClient =
      some (PollOutcome.err (IoError.invalidData "packet is too large"),
            { bigClient with read_state := ReadState.PacketTooLarge }) ∧
    pollRead scripted 2 smallClient =
      some (PollOutcome.pending,
            { smallClient with inner := { smallClient.inner with reads := [] } }) :=
  ⟨(pollRead_oversize_header_rejected scripted 0 bigClient ⟨16777217⟩ rfl rfl rfl).1
      (by decide),
   (pollRead_oversize_header_rejected scripted 0 smallClient ⟨16777216⟩ rfl rfl rfl).2
      (by decide) [] rfl⟩

/-- C2: `PacketTooLarge` is sticky — starting from it, any number `n`
of successive `read()` calls all resolve with the identical
"packet is too large" `InvalidData` error and leave the whole client,
read state included, unchanged. -/
theorem read_packetTooLarge_sticky (M : StreamModel σ) (fuel n : Nat)
    (c : LocoClient σ) (hrs : c.read_state = ReadState.PacketTooLarge) :
    readSeq M (fuel + 1) n c =
      some (List.replicate n
        (PollOutcome.err (IoError.invalidData "packet is too large")), c) := by
  induction n with
  | zero => rfl
  | succ k ih =>
    have hpoll : pollRead M (fuel + 1) c =
        some (PollOutcome.err (IoError.invalidData "packet is too large"), c) := by
      simp only [pollRead, hrs]
    have hstep : readDrive M (fuel + 1) c =
        some (PollOutcome.err (IoError.invalidData "packet is too large"), c) := by
      simp only [readDrive, hpoll]
    simp only [readSeq, hstep, ih, List.replicate_succ]

/-- C2 witness: two successive reads on a concrete poisoned client. -/
theorem read_packetTooLarge_sticky_witness :
    readSeq scripted 1 2 stuckClient =
      some (List.replicate 2
        (PollOutcome.err (IoError.invalidData "packet is too large")), stuckClient) :=
  read_packetTooLarge_sticky scripted 0 2 stuckClient rfl

/-- C3: with no decodable command and no oversize header, a 0-byte
transport read (end of stream) makes the read resolve with the
`UnexpectedEof` error while leaving the read state in the `Corrupted`
slot (the `Done` branch breaks without restoring it), so the next
`poll_read` call lands in the `Corrupted` branch — the `unreachable!()`
fatal assertion — rather than a repeated end-of-stream error. -/
theorem pollRead_eof_corrupts_state (M : StreamModel σ) (fuel fuel' : Nat)
    (c : LocoClient σ) (rest : List ReadEvent)
    (hrs : c.read_state = ReadState.Pending)
    (hpull : M.pull c.stream = none)
    (htl : tooLarge (M.state c.stream) = false)
    (hreads : c.inner.reads = ReadEvent.bytes [] :: rest) :
    pollRead M (fuel + 2) c =
      some (PollOutcome.err IoError.unexpectedEof,
            { c with read_state := ReadState.Corrupted,
                     inner := { c.inner with reads := rest } }) ∧
    pollRead M (fuel' + 1)
      { c with read_state := ReadState.Corrupted,
               inner := { c.inner with reads := rest } } =
      some (PollOutcome.fatal,
            { c with read_state := ReadState.Corrupted,
                     inner := { c.inner with reads := rest } }) := by
  constructor
  · show pollRead M (fuel + 1 + 1) c = _
    simp only [pollRead, hrs, hpull, htl, hreads, Bool.false_eq_true, if_false,
               List.isEmpty_nil, if_true]
  · simp only [pollRead]

/-- C3 witness: end of stream on a concrete fresh client, then the
fatal `Corrupted` branch on the follow-up call. -/
theorem pollRead_eof_corrupts_state_witness :
    pollRead scripted 2 eofClient =
      some (PollOutcome.err IoError.unexpectedEof,
            { eofClient with read_state := ReadState.Corrupted,
                             inner := { eofClient.inner with reads := [] } }) ∧
    pollRead scripted 1
      { eofClient with read_state := ReadState.Corrupted,
                       inner := { eofClient.inner with reads := [] } } =
      some (PollOutcome.fatal,
            { eofClient with read_state := ReadState.Corrupted,
                             inner := { eofClient.inner with reads := [] } }) :=
  pollRead_eof_corrupts_state scripted 0 0 eofClient [] rfl rfl rfl rfl

/-- C8: whenever `poll_read` returns `Poll::Pending` or
`Poll::Ready(Ok _)`, the read state slot holds `Pending`; moreover at a
suspension the codec stream is the initial stream extended, in order,
with the byte chunks consumed from the transport — accumulated state is
kept, never rolled back. -/
theorem pollRead_suspension_invariant (M : StreamModel σ) :
    ∀ (fuel : Nat) (c c' : LocoClient σ) (r : PollOutcome Command),
      pollRead M fuel c = some (r, c') →
      (r = PollOutcome.pending →
        c'.read_state = ReadState.Pending ∧
        ∃ chunks : List (List Nat),
          c'.stream = chunks.foldl M.extend c.stream) ∧
      (∀ cmd, r = PollOutcome.ok cmd → c'.read_state = ReadState.Pending) := by
  intro fuel
  induction fuel with
  | zero =>
    intro c c' r h
    simp [pollRead] at h
  | succ k ih =>
    intro c c' r h
    cases hrs : c.read_state with
    | Pending =>
      cases hpull : M.pull c.stream with
      | some p =>
        obtain ⟨cmd, s'⟩ := p
        simp only [pollRead, hrs, hpull, Option.some.injEq, Prod.mk.injEq] at h
        obtain ⟨rfl, rfl⟩ := h
        exact ⟨fun hp => PollOutcome.noConfusion hp, fun cmd' _ => rfl⟩
      | none =>
        cases htl : tooLarge (M.state c.stream) with
        | true =>
          simp only [pollRead, hrs, hpull, htl, if_true] at h
          have H := ih _ _ _ h
          exact H
        | false =>
          cases hreads : c.inner.reads with
          | nil =>
            simp only [pollRead, hrs, hpull, htl, hreads, Bool.false_eq_true,
                       if_false] at h
            exact Option.noConfusion h
          | cons ev rest =>
            cases ev with
            | pending =>
              simp only [pollRead, hrs, hpull, htl, hreads, Bool.false_eq_true,
                         if_false, Option.some.injEq, Prod.mk.injEq] at h
              obtain ⟨rfl, rfl⟩ := h
              exact ⟨fun _ => ⟨rfl, ⟨[], rfl⟩⟩, fun cmd hp => PollOutcome.noConfusion hp⟩
            | error e =>
              simp only [pollRead, hrs, hpull, htl, hreads, Bool.false_eq_true,
                         if_false, Option.some.injEq, Prod.mk.injEq] at h
              obtain ⟨rfl, rfl⟩ := h
              exact ⟨fun hp => PollOutcome.noConfusion hp,
                     fun cmd hp => PollOutcome.noConfusion hp⟩
            | bytes bs =>
              cases hbs : bs.isEmpty with
              | true =>
                simp only [pollRead, hrs, hpull, htl, hreads, hbs,
                           Bool.false_eq_true, if_false, if_true] at h
                have H := ih _ _ _ h
                exact H
              | false =>
                simp only [pollRead, hrs, hpull, htl, hreads, hbs,
                           Bool.false_eq_true, if_false] at h
                have H := ih _ _ _ h
                refine ⟨fun hp => ?_, H.2⟩
                obtain ⟨h1, chunks, h2⟩ := H.1 hp
                exact ⟨h1, ⟨bs.take 1024 :: chunks, by simpa using h2⟩⟩
    | PacketTooLarge =>
      simp only [pollRead, hrs, Option.some.injEq, Prod.mk.injEq] at h
      obtain ⟨rfl, rfl⟩ := h
      exact ⟨fun hp => PollOutcome.noConfusion hp,
             fun cmd hp => PollOutcome.noConfusion hp⟩
    | Done =>
      simp only [pollRead, hrs, Option.some.injEq, Prod.mk.injEq] at h
      obtain ⟨rfl, rfl⟩ := h
      exact ⟨fun hp => PollOutcome.noConfusion hp,
             fun cmd hp => PollOutcome.noConfusion hp⟩
    | Corrupted =>
      simp only [pollRead, hrs, Option.some.injEq, Prod.mk.injEq] at h
      obtain ⟨rfl, rfl⟩ := h
      exact ⟨fun hp => PollOutcome.noConfusion hp,
             fun cmd hp => PollOutcome.noConfusion hp⟩

/-- C8 witness: a concrete suspension (transport pending) leaves the
state `Pending` with the stream an extension of the original. -/
theorem pollRead_suspension_invariant_witness :
    ((PollOutcome.pending : PollOutcome Command) = PollOutcome.pending →
      waitClient2.read_state = ReadState.Pending ∧
      ∃ chunks : List (List Nat),
        waitClient2.stream = chunks.foldl scripted.extend waitClient.stream) ∧
    (∀ cmd : Command, PollOutcome.pending = PollOutcome.ok cmd →
      waitClient2.read_state = ReadState.Pending) :=
  pollRead_suspension_invariant scripted 1 waitClient waitClient2
    PollOutcome.pending rfl

/-- Draining `n` bytes removes exactly the first `n` bytes of the
logical buffer contents. -/
theorem SinkBuf.content_drain (b : SinkBuf) (n : Nat) :
    (b.drain n).content = b.content.drop n := by
  simp only [SinkBuf.drain, SinkBuf.content]
  split
  · next hle =>
    simp [List.drop_append_eq_append_drop, Nat.sub_eq_zero_of_le hle]
  · next hgt =>
    have hle : b.front.length ≤ n := le_of_not_le hgt
    simp [List.drop_append_eq_append_drop, List.drop_eq_nil_of_le hle]

/-- The run offered to the transport (`as_slices.0` if non-empty, else
`as_slices.1`) agrees with the front of the logical contents on any
in-range prefix. -/
theorem SinkBuf.slice_take (b : SinkBuf) (w : Nat)
    (hw : w ≤ (if b.front.isEmpty then b.back else b.front).length) :
    (if b.front.isEmpty then b.back else b.front).take w = b.content.take w := by
  cases hfr : b.front with
  | nil => simp [SinkBuf.content, hfr]
  | cons a l =>
    rw [hfr] at hw
    simp only [hfr, List.isEmpty_cons, Bool.false_eq_true, if_false] at hw ⊢
    rw [SinkBuf.content, hfr, List.take_append_eq_append_take,
        Nat.sub_eq_zero_of_le hw, List.take_zero, List.append_nil]

/-- One `poll_flush` call drains some prefix of the write buffer into
the transport's accepted stream, in order; on `Ready(Ok)`, the buffer
has been fully drained and the transport-level flush has completed. -/
theorem pollFlush_drain :
    ∀ (fuel : Nat) (c c' : LocoClient σ) (r : PollOutcome Unit),
      pollFlush fuel c = some (r, c') →
      ∃ k, c'.sink.content = c.sink.content.drop k ∧
           c'.inner.delivered = c.inner.delivered ++ c.sink.content.take k ∧
           (r = PollOutcome.ok () → c'.sink.content = [] ∧
              c'.inner.flushed = c.inner.flushed + 1) ∧
           (r ≠ PollOutcome.ok () → c'.inner.flushed = c.inner.flushed) := by
  intro fuel
  induction fuel with
  | zero =>
    intro c c' r h
    simp [pollFlush] at h
  | succ k ih =>
    intro c c' r h
    cases he : c.sink.content.isEmpty with
    | true =>
      have hnil : c.sink.content = [] := List.isEmpty_iff.mp he
      cases hf : c.inner.flushes with
      | nil =>
        simp only [pollFlush, he, if_true, hf] at h
        exact Option.noConfusion h
      | cons ev rest =>
        cases ev with
        | pending =>
          simp only [pollFlush, he, if_true, hf, Option.some.injEq,
                     Prod.mk.injEq] at h
          obtain ⟨rfl, rfl⟩ := h
          exact ⟨0, by simp, by simp, fun hp => PollOutcome.noConfusion hp,
                 fun _ => rfl⟩
        | error e =>
          simp only [pollFlush, he, if_true, hf, Option.some.injEq,
                     Prod.mk.injEq] at h
          obtain ⟨rfl, rfl⟩ := h
          exact ⟨0, by simp, by simp, fun hp => PollOutcome.noConfusion hp,
                 fun _ => rfl⟩
        | ok =>
          simp only [pollFlush, he, if_true, hf, Option.some.injEq,
                     Prod.mk.injEq] at h
          obtain ⟨rfl, rfl⟩ := h
          exact ⟨0, by simp, by simp, fun _ => ⟨hnil, rfl⟩,
                 fun hne => absurd rfl hne⟩
    | false =>
      cases hw : c.inner.writes with
      | nil =>
        simp only [pollFlush, he, Bool.false_eq_true, if_false, hw] at h
        exact Option.noConfusion h
      | cons ev rest =>
        cases ev with
        | pending =>
          simp only [pollFlush, he, Bool.false_eq_true, if_false, hw,
                     Option.some.injEq, Prod.mk.injEq] at h
          obtain ⟨rfl, rfl⟩ := h
          exact ⟨0, by simp, by simp, fun hp => PollOutcome.noConfusion hp,
                 fun _ => rfl⟩
        | error e =>
          simp only [pollFlush, he, Bool.false_eq_true, if_false, hw,
                     Option.some.injEq, Prod.mk.injEq] at h
          obtain ⟨rfl, rfl⟩ := h
          exact ⟨0, by simp, by simp, fun hp => PollOutcome.noConfusion hp,
                 fun _ => rfl⟩
        | accept n =>
          simp only [pollFlush, he, Bool.false_eq_true, if_false, hw] at h
          have H := ih _ _ _ h
          obtain ⟨k', h1, h2, h3, h4⟩ := H
          set slice := if c.sink.front.isEmpty then c.sink.back else c.sink.front
            with hslice
          set w := min n slice.length with hwdef
          have hwle : w ≤ slice.length := min_le_right _ _
          have hsl : slice.take w = c.sink.content.take w :=
            SinkBuf.slice_take c.sink w hwle
          refine ⟨w + k', ?_, ?_, ?_, ?_⟩
          · rw [h1, SinkBuf.content_drain, List.drop_drop]
          · rw [h2, SinkBuf.content_drain, hsl, List.append_assoc,
                ← List.take_add]
          · intro hr
            obtain ⟨hc, hfl⟩ := h3 hr
            exact ⟨hc, hfl⟩
          · intro hr
            exact h4 hr

/-- `poll_flush` never touches the read state, the codec read side, the
id counter, or the transport read script. -/
theorem pollFlush_frame :
    ∀ (fuel : Nat) (c c' : LocoClient σ) (r : PollOutcome Unit),
      pollFlush fuel c = some (r, c') →
      c'.read_state = c.read_state ∧ c'.stream = c.stream ∧
      c'.current_id = c.current_id ∧ c'.inner.reads = c.inner.reads := by
  intro fuel
  induction fuel with
  | zero =>
    intro c c' r h
    simp [pollFlush] at h
  | succ k ih =>
    intro c c' r h
    cases he : c.sink.content.isEmpty with
    | true =>
      cases hf : c.inner.flushes with
      | nil =>
        simp only [pollFlush, he, if_true, hf] at h
        exact Option.noConfusion h
      | cons ev rest =>
        cases ev with
        | pending =>
          simp only [pollFlush, he, if_true, hf, Option.some.injEq,
                     Prod.mk.injEq] at h
          obtain ⟨rfl, rfl⟩ := h
          exact ⟨rfl, rfl, rfl, rfl⟩
        | error e =>
          simp only [pollFlush, he, if_true, hf, Option.some.injEq,
                     Prod.mk.injEq] at h
          obtain ⟨rfl, rfl⟩ := h
          exact ⟨rfl, rfl, rfl, rfl⟩
        | ok =>
          simp only [pollFlush, he, if_true, hf, Option.some.injEq,
                     Prod.mk.injEq] at h
          obtain ⟨rfl, rfl⟩ := h
          exact ⟨rfl, rfl, rfl, rfl⟩
    | false =>
      cases hw : c.inner.writes with
      | nil =>
        simp only [pollFlush, he, Bool.false_eq_true, if_false, hw] at h
        exact Option.noConfusion h
      | cons ev rest =>
        cases ev with
        | pending =>
          simp only [pollFlush, he, Bool.false_eq_true, if_false, hw,
                     Option.some.injEq, Prod.mk.injEq] at h
          obtain ⟨rfl, rfl⟩ := h
          exact ⟨rfl, rfl, rfl, rfl⟩
        | error e =>
          simp only [pollFlush, he, Bool.false_eq_true, if_false, hw,
                     Option.some.injEq, Prod.mk.injEq] at h
          obtain ⟨rfl, rfl⟩ := h
          exact ⟨rfl, rfl, rfl, rfl⟩
        | accept n =>
          simp only [pollFlush, he, Bool.false_eq_true, if_false, hw] at h
          have H := ih _ _ _ h
          exact H

/-- Driving `poll_flush` to readiness (`flush()`) drains a prefix in
order; the same drain/frame facts lift from single polls. -/
theorem flushDrive_drain :
    ∀ (fuel : Nat) (c c' : LocoClient σ) (r : PollOutcome Unit),
      flushDrive fuel c = some (r, c') →
      ∃ k, c'.sink.content = c.sink.content.drop k ∧
           c'.inner.delivered = c.inner.delivered ++ c.sink.content.take k ∧
           (r = PollOutcome.ok () → c'.sink.content = [] ∧
              c'.inner.flushed = c.inner.flushed + 1) ∧
           (r ≠ PollOutcome.ok () → c'.inner.flushed = c.inner.flushed) := by
  intro fuel
  induction fuel with
  | zero =>
    intro c c' r h
    simp [flushDrive] at h
  | succ k ih =>
    intro c c' r h
    cases hp : pollFlush (k + 1) c with
    | none =>
      simp only [flushDrive, hp] at h
      exact Option.noConfusion h
    | some rc =>
      obtain ⟨r0, c0⟩ := rc
      obtain ⟨k0, g1, g2, g3, g4⟩ := pollFlush_drain (k + 1) c c0 r0 hp
      cases r0 with
      | pending =>
        simp only [flushDrive, hp] at h
        obtain ⟨k1, f1, f2, f3, f4⟩ := ih _ _ _ h
        have hfl0 : c0.inner.flushed = c.inner.flushed :=
          g4 (fun hx => PollOutcome.noConfusion hx)
        refine ⟨k0 + k1, ?_, ?_, ?_, ?_⟩
        · rw [f1, g1, List.drop_drop]
        · rw [f2, g2, g1, List.append_assoc, ← List.take_add]
        · intro hr
          obtain ⟨hc, hfl⟩ := f3 hr
          exact ⟨hc, by rw [hfl, hfl0]⟩
        · intro hr
          rw [f4 hr, hfl0]
      | ok u =>
        cases u
        simp only [flushDrive, hp, Option.some.injEq, Prod.mk.injEq] at h
        obtain ⟨rfl, rfl⟩ := h
        exact ⟨k0, g1, g2, g3, g4⟩
      | err e =>
        simp only [flushDrive, hp, Option.some.injEq, Prod.mk.injEq] at h
        obtain ⟨rfl, rfl⟩ := h
        exact ⟨k0, g1, g2, g3, g4⟩
      | fatal =>
        simp only [flushDrive, hp, Option.some.injEq, Prod.mk.injEq] at h
        obtain ⟨rfl, rfl⟩ := h
        exact ⟨k0, g1, g2, g3, g4⟩

/-- `flush()` (driving `poll_flush`) preserves the read side. -/
theorem flushDrive_frame :
    ∀ (fuel : Nat) (c c' : LocoClient σ) (r : PollOutcome Unit),
      flushDrive fuel c = some (r, c') →
      c'.read_state = c.read_state ∧ c'.stream = c.stream ∧
      c'.current_id = c.current_id ∧ c'.inner.reads = c.inner.reads := by
  intro fuel
  induction fuel with
  | zero =>
    intro c c' r h
    simp [flushDrive] at h
  | succ k ih =>
    intro c c' r h
    cases hp : pollFlush (k + 1) c with
    | none =>
      simp only [flushDrive, hp] at h
      exact Option.noConfusion h
    | some rc =>
      obtain ⟨r0, c0⟩ := rc
      obtain ⟨g1, g2, g3, g4⟩ := pollFlush_frame (k + 1) c c0 r0 hp
      cases r0 with
      | pending =>
        simp only [flushDrive, hp] at h
        obtain ⟨f1, f2, f3, f4⟩ := ih _ _ _ h
        exact ⟨f1.trans g1, f2.trans g2, f3.trans g3, f4.trans g4⟩
      | ok u =>
        cases u
        simp only [flushDrive, hp, Option.some.injEq, Prod.mk.injEq] at h
        obtain ⟨rfl, rfl⟩ := h
        exact ⟨g1, g2, g3, g4⟩
      | err e =>
        simp only [flushDrive, hp, Option.some.injEq, Prod.mk.injEq] at h
        obtain ⟨rfl, rfl⟩ := h
        exact ⟨g1, g2, g3, g4⟩
      | fatal =>
        simp only [flushDrive, hp, Option.some.injEq, Prod.mk.injEq] at h
        obtain ⟨rfl, rfl⟩ := h
        exact ⟨g1, g2, g3, g4⟩

/-- C4: a completed `flush()` run drains the write buffer into the
transport strictly from the front — at every outcome the bytes the
transport accepted extend its stream with a prefix of the buffer, and
on success the buffer is empty, every buffered byte was handed over in
enqueue order (so for commands A before B, all of A's bytes precede all
of B's bytes), and one transport-level flush was issued. -/
theorem flush_fifo (fuel : Nat) (c c' : LocoClient σ) (r : PollOutcome Unit)
    (h : flushDrive fuel c = some (r, c')) :
    (∃ k, c'.sink.content = c.sink.content.drop k ∧
          c'.inner.delivered = c.inner.delivered ++ c.sink.content.take k) ∧
    (r = PollOutcome.ok () →
      c'.sink.content = [] ∧
      c'.inner.delivered = c.inner.delivered ++ c.sink.content ∧
      c'.inner.flushed = c.inner.flushed + 1 ∧
      ∀ A B, c.sink.content = A ++ B →
        c'.inner.delivered = (c.inner.delivered ++ A) ++ B) := by
  obtain ⟨k, h1, h2, h3, _⟩ := flushDrive_drain fuel c c' r h
  refine ⟨⟨k, h1, h2⟩, fun hr => ?_⟩
  obtain ⟨hnil, hfl⟩ := h3 hr
  have hlen : c.sink.content.length ≤ k := by
    have hdrop : c.sink.content.drop k = [] := h1 ▸ hnil
    have := congrArg List.length hdrop
    simp only [List.length_drop, List.length_nil] at this
    omega
  have htake : c.sink.content.take k = c.sink.content :=
    List.take_of_length_le hlen
  refine ⟨hnil, by rw [h2, htake], hfl, fun A B hAB => ?_⟩
  rw [h2, htake, hAB, List.append_assoc]

/-- C4 witness: five buffered bytes split across the two ring runs,
flushed against a transport accepting 2, then 1 (capped by the run
length), then 2 bytes: delivered in order, buffer empty, flush issued. -/
theorem flush_fifo_witness :
    (∃ k, fifoClient2.sink.content = fifoClient.sink.content.drop k ∧
          fifoClient2.inner.delivered =
            fifoClient.inner.delivered ++ fifoClient.sink.content.take k) ∧
    (PollOutcome.ok () = PollOutcome.ok () →
      fifoClient2.sink.content = [] ∧
      fifoClient2.inner.delivered =
        fifoClient.inner.delivered ++ fifoClient.sink.content ∧
      fifoClient2.inner.flushed = fifoClient.inner.flushed + 1 ∧
      ∀ A B, fifoClient.sink.content = A ++ B →
        fifoClient2.inner.delivered = (fifoClient.inner.delivered ++ A) ++ B) :=
  flush_fifo 4 fifoClient fifoClient2 (PollOutcome.ok ()) (by decide)

/-- C9: neither `write` nor any `poll_flush` call changes the read
state or the codec read side; those are mutated only by the read path. -/
theorem write_flush_read_frame (enc : Command → List Nat) (c : LocoClient σ)
    (m : Method) (d : List Nat) :
    ((write enc c m d).2.read_state = c.read_state ∧
     (write enc c m d).2.stream = c.stream) ∧
    (∀ fuel r (c' : LocoClient σ), pollFlush fuel c = some (r, c') →
        c'.read_state = c.read_state ∧ c'.stream = c.stream) := by
  refine ⟨⟨rfl, rfl⟩, fun fuel r c' h => ?_⟩
  obtain ⟨h1, h2, _, _⟩ := pollFlush_frame fuel c c' r h
  exact ⟨h1, h2⟩

/-- C9 witness: the frame conditions at a concrete client and a
concrete completed `poll_flush` call. -/
theorem write_flush_read_frame_witness :
    fifoClient2.read_state = fifoClient.read_state ∧
    fifoClient2.stream = fifoClient.stream :=
  (write_flush_read_frame encNil fifoClient "PING" []).2 4
    (PollOutcome.ok ()) fifoClient2 (by decide)

/-- C10: with an empty write buffer, `poll_flush` consumes no transport
write call and drains nothing, yet still polls the transport-level
flush: it resolves `Ok` when the flush completes and propagates the
flush error otherwise. -/
theorem flush_empty_buffer (fuel : Nat) (c : LocoClient σ)
    (he : c.sink.content = []) :
    (∀ r (c' : LocoClient σ), pollFlush (fuel + 1) c = some (r, c') →
        c'.inner.writes = c.inner.writes ∧
        c'.inner.delivered = c.inner.delivered ∧ c'.sink = c.sink) ∧
    (∀ rest, c.inner.flushes = FlushEvent.ok :: rest →
        pollFlush (fuel + 1) c =
          some (PollOutcome.ok (),
            { c with inner := { c.inner with
                                flushes := rest
                                flushed := c.inner.flushed + 1 } })) ∧
    (∀ e rest, c.inner.flushes = FlushEvent.error e :: rest →
        pollFlush (fuel + 1) c =
          some (PollOutcome.err e,
            { c with inner := { c.inner with flushes := rest } })) := by
  have he' : c.sink.content.isEmpty = true := by simp [he]
  refine ⟨?_, ?_, ?_⟩
  · intro r c' h
    cases hf : c.inner.flushes with
    | nil =>
      simp only [pollFlush, he', if_true, hf] at h
      exact Option.noConfusion h
    | cons ev rest =>
      cases ev with
      | pending =>
        simp only [pollFlush, he', if_true, hf, Option.some.injEq,
                   Prod.mk.injEq] at h
        obtain ⟨rfl, rfl⟩ := h
        exact ⟨rfl, rfl, rfl⟩
      | error e =>
        simp only [pollFlush, he', if_true, hf, Option.some.injEq,
                   Prod.mk.injEq] at h
        obtain ⟨rfl, rfl⟩ := h
        exact ⟨rfl, rfl, rfl⟩
      | ok =>
        simp only [pollFlush, he', if_true, hf, Option.some.injEq,
                   Prod.mk.injEq] at h
        obtain ⟨rfl, rfl⟩ := h
        exact ⟨rfl, rfl, rfl⟩
  · intro rest hf
    simp only [pollFlush, he', if_true, hf]
  · intro e rest hf
    simp only [pollFlush, he', if_true, hf]

/-- C10 witness: empty buffer, one successful transport flush. -/
theorem flush_empty_buffer_witness :
    (∀ r (c' : LocoClient ScriptedStream),
        pollFlush 1 emptyFlushClient = some (r, c') →
        c'.inner.writes = emptyFlushClient.inner.writes ∧
        c'.inner.delivered = emptyFlushClient.inner.delivered ∧
        c'.sink = emptyFlushClient.sink) ∧
    (∀ rest, emptyFlushClient.inner.flushes = FlushEvent.ok :: rest →
        pollFlush 1 emptyFlushClient =
          some (PollOutcome.ok (),
            { emptyFlushClient with
              inner := { emptyFlushClient.inner with
                         flushes := rest
                         flushed := emptyFlushClient.inner.flushed + 1 } })) ∧
    (∀ e rest, emptyFlushClient.inner.flushes = FlushEvent.error e :: rest →
        pollFlush 1 emptyFlushClient =
          some (PollOutcome.err e,
            { emptyFlushClient with
              inner := { emptyFlushClient.inner with flushes := rest } })) :=
  flush_empty_buffer 0 emptyFlushClient rfl

/-- C6: `write` is a plain synchronous function (no transport poll, no
suspension): it returns the incremented (u32-wrapping) counter value,
stores it back, appends to the codec write buffer the serialization of
exactly `Command { Header { id, status: 0, method, data_type: 0 },
data }`, and leaves the transport and the whole read side untouched. -/
theorem write_enqueues_exact_command (enc : Command → List Nat)
    (c : LocoClient σ) (m : Method) (d : List Nat) :
    (write enc c m d).1 = (c.current_id + 1) % U32_MOD ∧
    (write enc c m d).2.current_id = (c.current_id + 1) % U32_MOD ∧
    (write enc c m d).2.sink.content =
      c.sink.content ++
        enc { header := { id := (c.current_id + 1) % U32_MOD, status := 0,
                          method := m, data_type := 0 }, data := d } ∧
    (write enc c m d).2.inner = c.inner ∧
    (write enc c m d).2.read_state = c.read_state ∧
    (write enc c m d).2.stream = c.stream := by
  refine ⟨rfl, rfl, ?_, rfl, rfl, rfl⟩
  simp [write, SinkBuf.pushBack, SinkBuf.content]

/-- Auxiliary to C7: from any client, `n` writes return the ids
`current_id + 1, …, current_id + n` as long as the counter does not
reach the 32-bit wraparound. -/
theorem writeN_ids (enc : Command → List Nat) (m : Method) (d : List Nat) :
    ∀ (n : Nat) (c : LocoClient σ), c.current_id + n < U32_MOD →
      (writeN enc m d n c).1 = List.range' (c.current_id + 1) n := by
  intro n
  induction n with
  | zero => intro c _; rfl
  | succ k ih =>
    intro c hlt
    have h1 : c.current_id + 1 < U32_MOD := by omega
    have hid : (c.current_id + 1) % U32_MOD = c.current_id + 1 :=
      Nat.mod_eq_of_lt h1
    have hc2 : (write enc c m d).2.current_id = c.current_id + 1 := by
      simp [write, hid]
    have htail := ih (write enc c m d).2 (by rw [hc2]; omega)
    rw [hc2] at htail
    calc (writeN enc m d (k + 1) c).1
        = (write enc c m d).1 :: (writeN enc m d k (write enc c m d).2).1 := rfl
      _ = (c.current_id + 1) :: List.range' (c.current_id + 1 + 1) k := by
            rw [htail]
            congr 1
      _ = List.range' (c.current_id + 1) (k + 1) := (List.range'_succ _ _ _).symm

/-- C7: on a freshly constructed adapter the ids returned by the first
`n` write/send calls are exactly `1, 2, …, n` — the n-th call returns
`n`, strictly increasing — for any `n` below 32-bit wraparound. -/
theorem writeN_fresh_ids (enc : Command → List Nat) (m : Method) (d : List Nat)
    (s0 : σ) (t : Transport) (n : Nat) (h : n < U32_MOD) :
    (writeN enc m d n (LocoClient.new s0 t)).1 = List.range' 1 n := by
  have h0 : (LocoClient.new s0 t).current_id + n < U32_MOD := by
    simpa [LocoClient.new] using h
  simpa [LocoClient.new] using writeN_ids enc m d n (LocoClient.new s0 t) h0

/-- C7 witness: three writes on a fresh client return `[1, 2, 3]`. -/
theorem writeN_fresh_ids_witness :
    (writeN encNil "PING" [] 3 (LocoClient.new idleStream pendTransport)).1 =
      List.range' 1 3 :=
  writeN_fresh_ids encNil "PING" [] idleStream pendTransport 3 (by decide)

/-- Auxiliary to C5: driving the request read task against a codec
that decodes `cmds` on successive pulls resolves with the first command
whose header id equals the request id, silently dropping every earlier
(non-matching) command. -/
theorem requestTask_finds (id : Nat) :
    ∀ (cmds : List Command) (cmd : Command) (c : LocoClient ScriptedStream),
      c.read_state = ReadState.Pending →
      c.stream.pulls = cmds.map some →
      cmds.find? (fun k => k.header.id == id) = some cmd →
      ∃ c', requestTask scripted id cmds.length c =
              some (PollOutcome.ok cmd, c') := by
  intro cmds
  induction cmds with
  | nil =>
    intro cmd c _ _ hfind
    exact Option.noConfusion hfind
  | cons c1 rest ih =>
    intro cmd c hrs hp hfind
    have hpull : scripted.pull c.stream =
        some (c1, { c.stream with pulls := rest.map some }) := by
      simp [scripted, hp]
    have hpoll : pollRead scripted (rest.length + 1) c =
        some (PollOutcome.ok c1,
              { c with stream := { c.stream with pulls := rest.map some } }) := by
      simp only [pollRead, hrs, hpull]
    have hdrive : readDrive scripted (rest.length + 1) c =
        some (PollOutcome.ok c1,
              { c with stream := { c.stream with pulls := rest.map some } }) := by
      simp only [readDrive, hpoll]
    by_cases hmatch : c1.header.id = id
    · have hpt : (fun k : Command => k.header.id == id) c1 = true := by
        simp [hmatch]
      have hcmd : cmd = c1 := by
        rw [List.find?_cons_of_pos rest hpt] at hfind
        exact (Option.some.inj hfind).symm
      subst hcmd
      refine ⟨{ c with stream := { c.stream with pulls := rest.map some } }, ?_⟩
      show requestTask scripted id (rest.length + 1) c = _
      simp only [requestTask, hdrive, if_pos hmatch]
    · have hpf : ¬ (fun k : Command => k.header.id == id) c1 = true := by
        simp [hmatch]
      have hfind' : rest.find? (fun k => k.header.id == id) = some cmd := by
        rwa [List.find?_cons_of_neg rest hpf] at hfind
      obtain ⟨c', hc'⟩ :=
        ih cmd { c with stream := { c.stream with pulls := rest.map some } }
          hrs rfl hfind'
      refine ⟨c', ?_⟩
      show requestTask scripted id (rest.length + 1) c = _
      simp only [requestTask, hdrive, if_neg hmatch]
      exact hc'

/-- C5: `request` assigns the id of its initiating `write`, and the
returned task — repeatedly driving the read path — resolves with the
first decoded command carrying exactly that id; every decoded command
with a different id is discarded, never delivered. -/
theorem request_resolves_matching (enc : Command → List Nat) (fuelF : Nat)
    (c c2 : LocoClient ScriptedStream) (m : Method) (d : List Nat)
    (cmds : List Command) (cmd : Command)
    (hrs : c.read_state = ReadState.Pending)
    (hpulls : c.stream.pulls = cmds.map some)
    (hflush : flushDrive fuelF (write enc c m d).2 =
      some (PollOutcome.ok (), c2))
    (hfind : cmds.find?
      (fun k => k.header.id == (c.current_id + 1) % U32_MOD) = some cmd) :
    cmd.header.id = (c.current_id + 1) % U32_MOD ∧
    ∃ c3, request enc scripted fuelF cmds.length c m d =
      some ((c.current_id + 1) % U32_MOD, some (PollOutcome.ok cmd, c3)) := by
  obtain ⟨hframe1, hframe2, _, _⟩ :=
    flushDrive_frame fuelF (write enc c m d).2 c2 _ hflush
  have h2rs : c2.read_state = ReadState.Pending := by
    rw [hframe1]; exact hrs
  have h2p : c2.stream.pulls = cmds.map some := by
    rw [hframe2]; exact hpulls
  obtain ⟨c3, hc3⟩ :=
    requestTask_finds ((c.current_id + 1) % U32_MOD) cmds cmd c2 h2rs h2p hfind
  have hpcmd := List.find?_some hfind
  have hid : cmd.header.id = (c.current_id + 1) % U32_MOD := by
    simpa using hpcmd
  have hw1 : (write enc c m d).1 = (c.current_id + 1) % U32_MOD := rfl
  refine ⟨hid, c3, ?_⟩
  simp only [request, hflush, hw1, hc3]

/-- C5 witness: a fresh client (assigned id 1) first receives a command
with id 7, which is discarded, then the command with id 1, which is
delivered. -/
theorem request_resolves_matching_witness :
    cmdB.header.id = (reqClient.current_id + 1) % U32_MOD ∧
    ∃ c3, request encNil scripted 1 2 reqClient "PING" [] =
      some ((reqClient.current_id + 1) % U32_MOD,
            some (PollOutcome.ok cmdB, c3)) :=
  request_resolves_matching encNil 1 reqClient reqClient2 "PING" []
    [cmdA, cmdB] cmdB rfl rfl (by decide) (by decide)

end FuturesLoco
